import Mathlib

/-!
Verification of the CapacityScout storage-monitoring core
(`CapacityScout_Qt.py`), shallowly embedded in Lean 4.

Modelling conventions:
* The SQLite tables `locations` and `daily_stats` become Lean lists of
  records held in a `Database` structure, together with the `dirty` flag
  of `Database.__init__` and a `commits` counter that counts calls to
  `conn.commit()` performed by `commit_if_dirty` (the observable "write").
* Calendar days are stored in the table as ISO-8601 text (`YYYY-MM-DD`)
  and compared both by SQLite string comparison (`day < ?`) and by Python
  `date` comparison (in `filtered_stats`).  For valid dates both orders
  coincide with the order of the proleptic-Gregorian ordinal
  (Python `date.toordinal`), so a day is embedded as its ordinal `Nat`.
  `Date.toOrd` below converts a calendar date (year, month, day) to that
  ordinal, so concrete calendar dates can be evaluated.
* SQLite `INTEGER` holds Python ints; `capacity_bytes` comes from file
  sizes (a `Nat`), `delta_bytes` is a difference (an `Int`).
* `INSERT OR REPLACE ... UNIQUE(location_id, day)` deletes every row with
  the conflicting key and appends the fresh row.
* `ORDER BY day DESC LIMIT 1` with `fetchone` is `maxByDay`; `SELECT`
  with no `ORDER BY` plus `fetchone` is `List.head?` of the filter.
-/

/-- One row of the `locations` table (`Location` dataclass in the source). -/
structure Location where
  locationId : Nat
  name : String
  path : String
  kind : String
deriving DecidableEq, Repr

/-- One row of the `daily_stats` table; the surrogate `id` column is never
read by the program, so it is omitted.  `day` is the date ordinal. -/
structure DailyStat where
  locationId : Nat
  day : Nat
  capacityBytes : Nat
  deltaBytes : Int
deriving DecidableEq, Repr

/-- The state of `Database`: both tables, the AUTOINCREMENT counter for
`locations.id`, the in-memory `dirty` flag, and a counter of committed
writes (calls to `conn.commit()` issued by `commit_if_dirty`). -/
structure Database where
  locations : List Location
  dailyStats : List DailyStat
  nextLocId : Nat
  dirty : Bool
  commits : Nat
deriving DecidableEq, Repr

/-- `Database.add_location`: INSERT into `locations`, set `dirty`,
return `cursor.lastrowid` (the AUTOINCREMENT id). -/
def Database.add_location (db : Database) (name path kind : String) :
    Nat × Database :=
  (db.nextLocId,
   { db with
       locations := db.locations ++ [⟨db.nextLocId, name, path, kind⟩]
       nextLocId := db.nextLocId + 1
       dirty := true })

/-- `Database.remove_location`: DELETE the location's daily stats, DELETE
the location row, set `dirty`.  No existence check is made. -/
def Database.remove_location (db : Database) (loc : Nat) : Database :=
  { db with
      dailyStats := db.dailyStats.filter (fun s => decide (s.locationId ≠ loc))
      locations := db.locations.filter (fun l => decide (l.locationId ≠ loc))
      dirty := true }

/-- `Database.stat_for_day`: exact-match SELECT, `fetchone`. -/
def Database.stat_for_day (db : Database) (loc day : Nat) : Option DailyStat :=
  (db.dailyStats.filter
    (fun s => decide (s.locationId = loc ∧ s.day = day))).head?

/-- The rows of `daily_stats` for `loc` with day strictly before `day`
(the WHERE clause of `last_stat_before_day`). -/
def Database.priorRows (db : Database) (loc day : Nat) : List DailyStat :=
  db.dailyStats.filter (fun s => decide (s.locationId = loc ∧ s.day < day))

/-- `ORDER BY day DESC LIMIT 1` then `fetchone`: a row of maximal day,
or `none` on the empty result set. -/
def maxByDay : List DailyStat → Option DailyStat
  | [] => none
  | s :: rest =>
    match maxByDay rest with
    | none => some s
    | some m => if m.day < s.day then some s else some m

/-- `Database.last_stat_before_day`: the most recent row strictly before
`day` for `loc`, or `none`. -/
def Database.last_stat_before_day (db : Database) (loc day : Nat) :
    Option DailyStat :=
  maxByDay (db.priorRows loc day)

/-- `Database.insert_daily_stat`: `INSERT OR REPLACE` under the
`UNIQUE(location_id, day)` constraint, then set `dirty`. -/
def Database.insert_daily_stat (db : Database) (loc day cap : Nat)
    (delta : Int) : Database :=
  { db with
      dailyStats :=
        db.dailyStats.filter
          (fun s => decide (¬(s.locationId = loc ∧ s.day = day)))
        ++ [⟨loc, day, cap, delta⟩]
      dirty := true }

/-- `Database.commit_if_dirty`: commit and clear the flag when dirty,
otherwise do nothing. -/
def Database.commit_if_dirty (db : Database) : Database :=
  if db.dirty then { db with dirty := false, commits := db.commits + 1 }
  else db

/-- The per-location body of `MonitorWindow.update_today_stats` after a
successful probe of `cap` bytes: read `last_stat_before_day`, compute
`delta` (0 when no prior row), upsert the row. -/
def Database.record (db : Database) (loc day cap : Nat) : Database :=
  let delta : Int :=
    match db.last_stat_before_day loc day with
    | some p => (cap : Int) - (p.capacityBytes : Int)
    | none => 0
  db.insert_daily_stat loc day cap delta

/-- The guard of `MonitorWindow.add_location`: an empty name or path is
rejected with a warning dialog before `Database.add_location` is called;
otherwise the store-level insert runs and the new id is returned. -/
def ui_add_location (db : Database) (name path kind : String) :
    Option Nat × Database :=
  if name = "" ∨ path = "" then (none, db)
  else
    let r := db.add_location name path kind
    (some r.1, r.2)

/-- Two daily-stat rows collide on the `UNIQUE(location_id, day)` key. -/
def sameKey (a b : DailyStat) : Prop :=
  a.locationId = b.locationId ∧ a.day = b.day

instance (a b : DailyStat) : Decidable (sameKey a b) :=
  inferInstanceAs (Decidable (_ ∧ _))

/-- The `UNIQUE(location_id, day)` invariant on the `daily_stats` table. -/
def Database.statsUnique (db : Database) : Prop :=
  db.dailyStats.Pairwise (fun a b => ¬ sameKey a b)

instance (db : Database) : Decidable db.statsUnique :=
  inferInstanceAs (Decidable (List.Pairwise _ _))

/-- The `FOREIGN KEY(location_id) REFERENCES locations(id)` integrity:
every daily stat references an existing location. -/
def Database.refIntegrity (db : Database) : Prop :=
  ∀ s ∈ db.dailyStats, ∃ l ∈ db.locations, l.locationId = s.locationId

instance (db : Database) : Decidable db.refIntegrity :=
  inferInstanceAs (Decidable (∀ s ∈ _, ∃ l ∈ _, _))

/-- AUTOINCREMENT freshness: every stored location id is below the next
id to be handed out. -/
def Database.locsFresh (db : Database) : Prop :=
  ∀ l ∈ db.locations, l.locationId < db.nextLocId

instance (db : Database) : Decidable db.locsFresh :=
  inferInstanceAs (Decidable (∀ l ∈ _, _))

/-! ### Calendar dates

`MonitorWindow.filtered_stats` works with Python `datetime.date` values:
it subtracts `timedelta` values and compares dates.  Python date
arithmetic and ordering agree exactly with arithmetic and ordering of
`date.toordinal()` (day 1 is 0001-01-01, a Monday, proleptic Gregorian),
and `date.weekday()` is `(toordinal - 1) % 7` with Monday = 0.  The
embedding therefore performs the arithmetic on ordinals. -/

/-- A calendar date as year/month/day, as parsed from the ISO text in
the `day` column (`datetime.strptime(row["day"], "%Y-%m-%d")`). -/
structure Date where
  year : Nat
  month : Nat
  day : Nat
deriving DecidableEq, Repr

/-- Gregorian leap year. -/
def isLeap (y : Nat) : Bool :=
  (y % 4 == 0 && y % 100 != 0) || y % 400 == 0

/-- Days in the months preceding month `m` of a year (common year). -/
def daysBeforeMonth (m : Nat) (leap : Bool) : Nat :=
  let base :=
    [0, 31, 59, 90, 120, 151, 181, 212, 243, 273, 304, 334].getD (m - 1) 0
  if leap && decide (2 < m) then base + 1 else base

/-- Python `date.toordinal()`: the proleptic-Gregorian ordinal of the
date, with 0001-01-01 mapping to 1. -/
def Date.toOrd (d : Date) : Nat :=
  let y := d.year - 1
  365 * y + y / 4 - y / 100 + y / 400
    + daysBeforeMonth d.month (isLeap d.year) + d.day

/-- Python `date.weekday()` on an ordinal: Monday = 0 … Sunday = 6. -/
def weekdayOf (o : Nat) : Nat := (o - 1) % 7

/-- `selected - timedelta(days=selected.weekday())`: the Monday of the
ISO week of the date with ordinal `o`. -/
def mondayOfWeek (o : Nat) : Nat := o - weekdayOf o

/-- `MonitorWindow.filtered_stats`: keep the rows of `stats` whose day
falls inside the period around `selected` chosen by the filter combo
(`"Vše"` = all, `"Týden"` = week, `"Měsíc"` = month, anything else falls
into the year branch, as in the source's final `else`).  Comparisons of
Python `date` values are carried out on ordinals. -/
def filtered_stats (period : String) (selected : Date)
    (stats : List DailyStat) : List DailyStat :=
  if period = "Vše" then stats
  else
    let bounds : Nat × Nat :=
      if period = "Týden" then
        let start := mondayOfWeek selected.toOrd
        (start, start + 6)
      else if period = "Měsíc" then
        let start := (Date.mk selected.year selected.month 1).toOrd
        if selected.month = 12 then
          (start, (Date.mk selected.year 12 31).toOrd)
        else
          (start, (Date.mk selected.year (selected.month + 1) 1).toOrd - 1)
      else
        ((Date.mk selected.year 1 1).toOrd, (Date.mk selected.year 12 31).toOrd)
    stats.filter (fun r => decide (bounds.1 ≤ r.day ∧ r.day ≤ bounds.2))

/-! ### The size probe

`LocationSize.folder_size` walks a directory tree with `os.walk` (whose
default `onerror=None` silently ignores any directory that cannot be
listed, including a missing root) and sums `os.path.getsize` of each
file, skipping any file whose `getsize` raises `OSError`.
`LocationSize.disk_usage` calls `shutil.disk_usage`, which raises
`OSError` when the path is inaccessible.

The filesystem at probe time is modelled as a tree: each directory
carries whether it can be listed and, for each file in it, the outcome
of `getsize` (`none` = the file vanished or became unreadable). -/

mutual
/-- A directory at probe time: listability, `getsize` outcomes of its
files, subdirectories. -/
inductive FsTree : Type where
  | dir (accessible : Bool) (files : List (Option Nat)) (subs : FsForest)

/-- A list of sibling directories. -/
inductive FsForest : Type where
  | nil
  | cons (t : FsTree) (rest : FsForest)
end

mutual
/-- The `getsize` outcomes yielded by `os.walk` from this root: nothing
when the directory cannot be listed (`onerror=None`), otherwise its own
files followed by the recursive walk of its subdirectories. -/
def walkFiles : FsTree → List (Option Nat)
  | .dir accessible files subs =>
    if accessible then files ++ walkForest subs else []

/-- Walk each tree of a forest in order. -/
def walkForest : FsForest → List (Option Nat)
  | .nil => []
  | .cons t rest => walkFiles t ++ walkForest rest
end

/-- `total += os.path.getsize(...)` inside `try`/`except OSError:
continue`: an unreadable file leaves the total unchanged. -/
def addSize (total : Nat) (s : Option Nat) : Nat :=
  match s with
  | some n => total + n
  | none => total

/-- `LocationSize.folder_size`: fold the walk, skipping unreadable
files. -/
def folder_size (root : FsTree) : Nat :=
  (walkFiles root).foldl addSize 0

/-- The error the probe's callers catch (`except (OSError,
FileNotFoundError)`), which the spec names `LocationUnreachable`. -/
inductive SizeError : Type where
  | locationUnreachable
deriving DecidableEq, Repr

/-- `LocationSize.disk_usage`: `shutil.disk_usage(path).used`, which
raises when the volume statistics are unavailable; `du` is the outcome
of that system call (`none` = `OSError`). -/
def disk_usage (du : Option Nat) : Except SizeError Nat :=
  match du with
  | some used => Except.ok used
  | none => Except.error SizeError.locationUnreachable

/-- `LocationSize.compute`: dispatch on the kind string; any kind other
than `"Disk"` takes the folder walk. -/
def compute (du : Option Nat) (root : FsTree) (kind : String) :
    Except SizeError Nat :=
  if kind = "Disk" then disk_usage du
  else Except.ok (folder_size root)

/-! ### Concrete states used as witnesses -/

/-- A store holding one location and one daily stat, clean. -/
def dbEx : Database :=
  { locations := [⟨1, "Data", "/data", "Folder"⟩]
    dailyStats := [⟨1, 100, 10, 0⟩]
    nextLocId := 2
    dirty := false
    commits := 0 }

/-- `dbEx` after recording day 101 with 12 bytes: a dirty store. -/
def dbDirtyEx : Database := dbEx.record 1 101 12

/-- A readable directory with one vanished file and an unreadable
subdirectory. -/
def fsEx : FsTree :=
  FsTree.dir true [some 3, none, some 4]
    (FsForest.cons (FsTree.dir false [some 100] FsForest.nil) FsForest.nil)

/-- A series around the spec's week example: days 2024-03-10 (Sunday),
2024-03-11 (Monday), 2024-03-14 (Thursday), 2024-03-17 (Sunday) and
2024-03-18 (Monday of the next week), ascending. -/
def statsEx : List DailyStat :=
  [⟨1, (Date.mk 2024 3 10).toOrd, 9, 0⟩,
   ⟨1, (Date.mk 2024 3 11).toOrd, 10, 1⟩,
   ⟨1, (Date.mk 2024 3 14).toOrd, 12, 2⟩,
   ⟨1, (Date.mk 2024 3 17).toOrd, 13, 1⟩,
   ⟨1, (Date.mk 2024 3 18).toOrd, 14, 1⟩]


/-! ### Helper lemmas -/

/-- Folding `addSize` sums exactly the readable (`some`) sizes. -/
theorem foldl_addSize (l : List (Option Nat)) (t : Nat) :
    l.foldl addSize t = t + (l.filterMap id).sum := by
  induction l generalizing t with
  | nil => simp
  | cons s rest ih =>
    cases s with
    | none => simp [addSize, ih]
    | some n => simp [addSize, ih]; omega

/-- `folder_size` is the sum of the readable sizes the walk yields. -/
theorem folder_size_eq_sum (root : FsTree) :
    folder_size root = ((walkFiles root).filterMap id).sum := by
  rw [folder_size, foldl_addSize]
  simp

/-- A nonempty result set always yields a row. -/
theorem maxByDay_ne_none {l : List DailyStat} (h : l ≠ []) :
    ∃ m, maxByDay l = some m := by
  cases l with
  | nil => exact absurd rfl h
  | cons s rest =>
    rw [maxByDay]
    cases maxByDay rest with
    | none => exact ⟨s, rfl⟩
    | some m =>
      by_cases hlt : m.day < s.day
      · exact ⟨s, by simp [hlt]⟩
      · exact ⟨m, by simp [hlt]⟩

/-- The chosen row belongs to the result set. -/
theorem maxByDay_mem {l : List DailyStat} {m : DailyStat}
    (h : maxByDay l = some m) : m ∈ l := by
  induction l with
  | nil => simp [maxByDay] at h
  | cons s rest ih =>
    rw [maxByDay] at h
    cases hr : maxByDay rest with
    | none => rw [hr] at h; simp at h; simp [h]
    | some m0 =>
      rw [hr] at h
      by_cases hlt : m0.day < s.day
      · simp [hlt] at h; simp [h]
      · simp [hlt] at h
        subst h
        exact List.mem_cons_of_mem s (ih hr)

/-- The chosen row has the maximal day of the result set. -/
theorem maxByDay_le {l : List DailyStat} {m : DailyStat}
    (h : maxByDay l = some m) : ∀ x ∈ l, x.day ≤ m.day := by
  induction l generalizing m with
  | nil => simp [maxByDay] at h
  | cons s rest ih =>
    rw [maxByDay] at h
    cases hr : maxByDay rest with
    | none =>
      rw [hr] at h
      simp at h
      subst h
      intro x hx
      rcases List.mem_cons.mp hx with hx | hx
      · simp [hx]
      · cases rest with
        | nil => simp at hx
        | cons a b =>
          obtain ⟨m0, hm0⟩ := maxByDay_ne_none (l := a :: b) (by simp)
          rw [hm0] at hr
          cases hr
    | some m0 =>
      rw [hr] at h
      intro x hx
      by_cases hlt : m0.day < s.day
      · simp [hlt] at h
        subst h
        rcases List.mem_cons.mp hx with hx | hx
        · simp [hx]
        · have := ih hr x hx
          omega
      · simp [hlt] at h
        subst h
        rcases List.mem_cons.mp hx with hx | hx
        · subst hx; omega
        · exact ih hr x hx

/-- With pairwise-distinct days, any maximal row is the one chosen. -/
theorem maxByDay_eq_of_max {l : List DailyStat}
    (hday : ∀ a ∈ l, ∀ b ∈ l, a.day = b.day → a = b)
    {p : DailyStat} (hp : p ∈ l) (hmax : ∀ q ∈ l, q.day ≤ p.day) :
    maxByDay l = some p := by
  obtain ⟨m, hm⟩ := maxByDay_ne_none (l := l) (by rintro rfl; simp at hp)
  have hmem := maxByDay_mem hm
  have h1 : p.day ≤ m.day := maxByDay_le hm p hp
  have h2 : m.day ≤ p.day := hmax m hmem
  have : m = p := hday m hmem p hp (by omega)
  rw [hm, this]

/-- Inserting a row for `day` leaves the strictly-before-`day` result
set untouched: the replaced rows and the new row all live on `day`. -/
theorem priorRows_insert (db : Database) (loc day cap : Nat) (delta : Int) :
    (db.insert_daily_stat loc day cap delta).priorRows loc day
      = db.priorRows loc day := by
  rw [Database.insert_daily_stat, Database.priorRows, Database.priorRows]
  simp only [List.filter_append, List.filter_filter]
  have h1 : List.filter
      (fun s => decide (s.locationId = loc ∧ s.day < day))
      [(⟨loc, day, cap, delta⟩ : DailyStat)] = [] := by simp
  rw [h1, List.append_nil]
  refine List.filter_congr ?_
  intro s _
  by_cases h2 : s.locationId = loc ∧ s.day < day
  · simp [h2]
    omega
  · simp [h2]

/-- Looking up the exact day just inserted yields the inserted row. -/
theorem stat_for_day_insert (db : Database) (loc day cap : Nat) (delta : Int) :
    (db.insert_daily_stat loc day cap delta).stat_for_day loc day
      = some ⟨loc, day, cap, delta⟩ := by
  rw [Database.insert_daily_stat, Database.stat_for_day]
  simp only [List.filter_append, List.filter_filter]
  have h1 : List.filter
      (fun s => decide (s.locationId = loc ∧ s.day = day) &&
        decide (¬(s.locationId = loc ∧ s.day = day))) db.dailyStats = [] := by
    refine List.filter_eq_nil_iff.mpr ?_
    intro a _
    by_cases h : a.locationId = loc ∧ a.day = day <;> simp [h]
  rw [h1]
  simp

/-! ### Claim theorems -/

/-- C3: removing a location by id leaves zero daily-stat rows referencing
it, removes the location row itself, and—done in the one operation
`remove_location`—preserves referential integrity, so no daily stat
outlives its location. -/
theorem C3_remove_cascades (db : Database) (loc : Nat) :
    (∀ s ∈ (db.remove_location loc).dailyStats, s.locationId ≠ loc)
    ∧ (∀ l ∈ (db.remove_location loc).locations, l.locationId ≠ loc)
    ∧ (db.refIntegrity → (db.remove_location loc).refIntegrity) := by
  refine ⟨?_, ?_, ?_⟩
  · intro s hs
    rw [Database.remove_location] at hs
    simp only [List.mem_filter, decide_eq_true_eq] at hs
    exact hs.2
  · intro l hl
    rw [Database.remove_location] at hl
    simp only [List.mem_filter, decide_eq_true_eq] at hl
    exact hl.2
  · intro h s hs
    have hs2 : s ∈ db.dailyStats ∧ s.locationId ≠ loc := by
      rw [Database.remove_location] at hs
      simpa using hs
    obtain ⟨l, hl, hll⟩ := h s hs2.1
    refine ⟨l, ?_, hll⟩
    rw [Database.remove_location]
    simp only [List.mem_filter, decide_eq_true_eq]
    exact ⟨hl, by rw [hll]; exact hs2.2⟩

/-- Closed instance of C3 on the concrete store `dbEx`. -/
theorem C3_witness :
    (∀ s ∈ (dbEx.remove_location 1).dailyStats, s.locationId ≠ 1)
    ∧ (∀ l ∈ (dbEx.remove_location 1).locations, l.locationId ≠ 1)
    ∧ (dbEx.refIntegrity → (dbEx.remove_location 1).refIntegrity) :=
  C3_remove_cascades dbEx 1

/-- C5 as stated is false: with Folder kind, an unreachable root does
not make `compute` fail — `os.walk` swallows the error and `compute`
returns the byte count 0. -/
theorem C5_counterexample :
    compute none (FsTree.dir false [some 5] FsForest.nil) "Folder"
        = Except.ok 0
    ∧ compute none (FsTree.dir false [some 5] FsForest.nil) "Folder"
        ≠ Except.error SizeError.locationUnreachable := by
  refine ⟨rfl, ?_⟩
  intro h
  rw [show compute none (FsTree.dir false [some 5] FsForest.nil) "Folder"
        = Except.ok 0 from rfl] at h
  simp at h

/-- C5 amended: `compute` fails with `LocationUnreachable` exactly when
the kind is Disk and the volume statistics of the root are unavailable;
for any other kind it always returns the folder-walk byte count (even
for an unreachable root), and an accessible volume never fails. -/
theorem C5_amended_unreachable (du : Option Nat) (root : FsTree)
    (kind : String) :
    (compute du root kind = Except.error SizeError.locationUnreachable
        ↔ kind = "Disk" ∧ du = none)
    ∧ (kind ≠ "Disk" → compute du root kind = Except.ok (folder_size root))
    ∧ (∀ u, du = some u →
        compute du root kind ≠ Except.error SizeError.locationUnreachable) := by
  by_cases hk : kind = "Disk" <;> cases du <;>
    simp [compute, disk_usage, hk]

/-- Closed instance of the amended C5 for an accessible Disk probe. -/
theorem C5_amended_witness :
    (compute (some 7) fsEx "Disk" = Except.error SizeError.locationUnreachable
        ↔ "Disk" = "Disk" ∧ (some 7 : Option Nat) = none)
    ∧ ("Disk" ≠ "Disk" →
        compute (some 7) fsEx "Disk" = Except.ok (folder_size fsEx))
    ∧ (∀ u, (some 7 : Option Nat) = some u →
        compute (some 7) fsEx "Disk" ≠ Except.error SizeError.locationUnreachable) :=
  C5_amended_unreachable (some 7) fsEx "Disk"

/-- C6 as stated is false: removing an id absent from the registry is
not a no-op — `remove_location` has no existence check, signals nothing,
and still flips the dirty flag, changing the store state. -/
theorem C6_counterexample :
    (∀ l ∈ dbEx.locations, l.locationId ≠ 5)
    ∧ dbEx.remove_location 5 ≠ dbEx
    ∧ (dbEx.remove_location 5).dirty = true
    ∧ dbEx.dirty = false := by decide

/-- C6 amended: removing an id that no location and no daily stat
references deletes no rows, but no `NotFound` is signalled (the
operation is total and succeeds silently) and the dirty flag is set. -/
theorem C6_amended_remove_unknown (db : Database) (loc : Nat)
    (hl : ∀ l ∈ db.locations, l.locationId ≠ loc)
    (hs : ∀ s ∈ db.dailyStats, s.locationId ≠ loc) :
    (db.remove_location loc).locations = db.locations
    ∧ (db.remove_location loc).dailyStats = db.dailyStats
    ∧ (db.remove_location loc).dirty = true := by
  refine ⟨?_, ?_, rfl⟩
  · simp only [Database.remove_location, List.filter_eq_self]
    intro a ha
    simpa using hl a ha
  · simp only [Database.remove_location, List.filter_eq_self]
    intro a ha
    simpa using hs a ha

/-- Closed instance of the amended C6 on `dbEx` with unknown id 5. -/
theorem C6_amended_witness :
    (dbEx.remove_location 5).locations = dbEx.locations
    ∧ (dbEx.remove_location 5).dailyStats = dbEx.dailyStats
    ∧ (dbEx.remove_location 5).dirty = true :=
  C6_amended_remove_unknown dbEx 5 (by decide) (by decide)

/-- C7: flushing a clean store is the identity (no commit); any mutation
dirties the store; flushing a dirty store commits exactly once and
clears the flag, after which a second flush does nothing. -/
theorem C7_flush_policy (db : Database) (h : db.dirty = false)
    (name path kind : String) (loc day cap : Nat)
    (db2 : Database) (h2 : db2.dirty = true) :
    db.commit_if_dirty = db
    ∧ (db.add_location name path kind).2.dirty = true
    ∧ (db.record loc day cap).dirty = true
    ∧ db2.commit_if_dirty.dirty = false
    ∧ db2.commit_if_dirty.commits = db2.commits + 1
    ∧ db2.commit_if_dirty.commit_if_dirty = db2.commit_if_dirty := by
  refine ⟨?_, rfl, rfl, ?_, ?_, ?_⟩ <;>
    simp [Database.commit_if_dirty, h, h2]

/-- Closed instance of C7 on the clean `dbEx` and dirty `dbDirtyEx`. -/
theorem C7_witness :
    dbEx.commit_if_dirty = dbEx
    ∧ (dbEx.add_location "Docs" "/docs" "Folder").2.dirty = true
    ∧ (dbEx.record 1 101 12).dirty = true
    ∧ dbDirtyEx.commit_if_dirty.dirty = false
    ∧ dbDirtyEx.commit_if_dirty.commits = dbDirtyEx.commits + 1
    ∧ dbDirtyEx.commit_if_dirty.commit_if_dirty = dbDirtyEx.commit_if_dirty :=
  C7_flush_policy dbEx rfl "Docs" "/docs" "Folder" 1 101 12 dbDirtyEx (by decide)

/-- C8: an entry whose size read fails is skipped silently — removing it
from a directory listing does not change the folder total, and the total
is always the sum of the readable files yielded by the walk (the walk is
a total function, so it never aborts). -/
theorem C8_unreadable_entries_skipped (accessible : Bool)
    (pre post : List (Option Nat)) (subs : FsForest) (root : FsTree) :
    folder_size (FsTree.dir accessible (pre ++ none :: post) subs)
      = folder_size (FsTree.dir accessible (pre ++ post) subs)
    ∧ folder_size root = ((walkFiles root).filterMap id).sum := by
  refine ⟨?_, folder_size_eq_sum root⟩
  rw [folder_size_eq_sum, folder_size_eq_sum]
  cases accessible <;> simp [walkFiles, List.filterMap_append]

/-- C9: every mutating store operation sets the dirty flag
unconditionally, so even a removal matching no rows makes the next
flush commit. -/
theorem C9_mutations_always_dirty (db : Database)
    (name path kind : String) (loc day cap : Nat) (delta : Int) :
    (db.add_location name path kind).2.dirty = true
    ∧ (db.remove_location loc).dirty = true
    ∧ (db.insert_daily_stat loc day cap delta).dirty = true
    ∧ (db.remove_location loc).commit_if_dirty.commits = db.commits + 1 := by
  refine ⟨rfl, rfl, rfl, ?_⟩
  simp [Database.remove_location, Database.commit_if_dirty]

/-- C10: the store-level `add_location` inserts and returns the fresh
id for any strings, empty ones included; the empty-input rejection
lives only in the UI handler, which returns without touching the
store. -/
theorem C10_store_accepts_empty_input (db : Database)
    (name path kind : String) :
    (db.add_location name path kind).1 = db.nextLocId
    ∧ (db.add_location name path kind).2.locations
        = db.locations ++ [⟨db.nextLocId, name, path, kind⟩]
    ∧ (db.locsFresh →
        ∀ l ∈ db.locations, l.locationId ≠ (db.add_location name path kind).1)
    ∧ ((name = "" ∨ path = "") →
        ui_add_location db name path kind = (none, db)) := by
  refine ⟨rfl, rfl, ?_, ?_⟩
  · intro hf l hl
    have := hf l hl
    show l.locationId ≠ db.nextLocId
    omega
  · intro h
    rcases h with h | h <;> simp [ui_add_location, h]

/-- Closed instance of C10: an empty name is accepted by the store and
rejected by the UI guard. -/
theorem C10_witness :
    (dbEx.add_location "" "/tmp" "Disk").1 = dbEx.nextLocId
    ∧ (dbEx.add_location "" "/tmp" "Disk").2.locations
        = dbEx.locations ++ [⟨dbEx.nextLocId, "", "/tmp", "Disk"⟩]
    ∧ (dbEx.locsFresh →
        ∀ l ∈ dbEx.locations, l.locationId ≠ (dbEx.add_location "" "/tmp" "Disk").1)
    ∧ (("" = "" ∨ "/tmp" = "") →
        ui_add_location dbEx "" "/tmp" "Disk" = (none, dbEx)) :=
  C10_store_accepts_empty_input dbEx "" "/tmp" "Disk"

/-- Inserting a row keeps the `UNIQUE(location_id, day)` invariant: the
replace removes every row carrying the new row's key first. -/
theorem statsUnique_insert (db : Database) (loc day cap : Nat) (delta : Int)
    (h : db.statsUnique) :
    (db.insert_daily_stat loc day cap delta).statsUnique := by
  rw [Database.statsUnique] at h ⊢
  rw [Database.insert_daily_stat]
  rw [List.pairwise_append]
  refine ⟨List.Pairwise.sublist (List.filter_sublist _) h, by simp, ?_⟩
  intro a ha b hb
  simp only [List.mem_singleton] at hb
  subst hb
  have h2 := List.of_mem_filter ha
  simp only [decide_eq_true_eq] at h2
  exact h2

/-- `record` keeps the uniqueness invariant. -/
theorem statsUnique_record (db : Database) (loc day cap : Nat)
    (h : db.statsUnique) : (db.record loc day cap).statsUnique :=
  statsUnique_insert db loc day cap _ h

/-- Under pairwise-distinct keys, at most one row carries a given key. -/
theorem countP_key_le_one {l : List DailyStat}
    (h : l.Pairwise (fun a b => ¬ sameKey a b)) (loc day : Nat) :
    l.countP (fun s => decide (s.locationId = loc ∧ s.day = day)) ≤ 1 := by
  induction l with
  | nil => simp
  | cons a rest ih =>
    rw [List.countP_cons]
    have hp := List.pairwise_cons.mp h
    by_cases ha : a.locationId = loc ∧ a.day = day
    · have h0 : rest.countP
          (fun s => decide (s.locationId = loc ∧ s.day = day)) = 0 := by
        rw [List.countP_eq_zero]
        intro b hb
        have hnk := hp.1 b hb
        simp only [decide_eq_true_eq]
        intro hbk
        exact hnk ⟨ha.1.trans hbk.1.symm, ha.2.trans hbk.2.symm⟩
      rw [h0, if_pos (by simpa using ha)]
    · rw [if_neg (by simpa using ha), Nat.add_zero]
      exact ih hp.2

/-- Distinct rows of the prior-day result set have distinct days. -/
theorem priorRows_day_inj (db : Database) (h : db.statsUnique)
    (loc day : Nat) :
    ∀ a ∈ db.priorRows loc day, ∀ b ∈ db.priorRows loc day,
      a.day = b.day → a = b := by
  intro a ha b hb hab
  by_cases hEq : a = b
  · exact hEq
  · exfalso
    rw [Database.statsUnique] at h
    rw [Database.priorRows] at ha hb
    have hsub : (db.dailyStats.filter
        (fun s => decide (s.locationId = loc ∧ s.day < day))).Pairwise
        (fun x y => ¬ sameKey x y) :=
      List.Pairwise.sublist (List.filter_sublist _) h
    have hsymm : Symmetric (fun x y : DailyStat => ¬ sameKey x y) := by
      intro x y hxy hk
      exact hxy ⟨hk.1.symm, hk.2.symm⟩
    have hnk := hsub.forall hsymm ha hb hEq
    have ha2 := List.of_mem_filter ha
    have hb2 := List.of_mem_filter hb
    simp only [decide_eq_true_eq] at ha2 hb2
    exact hnk ⟨ha2.1.trans hb2.1.symm, hab⟩

/-- C1: `record` stores `capacity − capacity(most recent strictly
earlier day)` as the delta, or 0 with no earlier row; re-recording the
same day computes the delta from that same prior-day baseline, not from
the row being overwritten. -/
theorem C1_delta_baseline (db : Database) (h : db.statsUnique)
    (loc day c1 c2 : Nat) :
    (db.priorRows loc day = [] →
        (db.record loc day c1).stat_for_day loc day
            = some ⟨loc, day, c1, 0⟩
        ∧ ((db.record loc day c1).record loc day c2).stat_for_day loc day
            = some ⟨loc, day, c2, 0⟩)
    ∧ (∀ p ∈ db.priorRows loc day,
        (∀ q ∈ db.priorRows loc day, q.day ≤ p.day) →
        (db.record loc day c1).stat_for_day loc day
            = some ⟨loc, day, c1, (c1 : Int) - (p.capacityBytes : Int)⟩
        ∧ ((db.record loc day c1).record loc day c2).stat_for_day loc day
            = some ⟨loc, day, c2, (c2 : Int) - (p.capacityBytes : Int)⟩) := by
  have hrec : ∀ (d : Database) (c : Nat), d.record loc day c
      = d.insert_daily_stat loc day c
          (match d.last_stat_before_day loc day with
            | some p => (c : Int) - (p.capacityBytes : Int)
            | none => 0) := fun d c => rfl
  constructor
  · intro he
    have hn : db.last_stat_before_day loc day = none := by
      rw [Database.last_stat_before_day, he]
      rfl
    have e1 : db.record loc day c1 = db.insert_daily_stat loc day c1 0 := by
      rw [hrec, hn]
    have hp1 : (db.record loc day c1).priorRows loc day = [] := by
      rw [e1, priorRows_insert, he]
    have hn2 : (db.record loc day c1).last_stat_before_day loc day = none := by
      rw [Database.last_stat_before_day, hp1]
      rfl
    have e2 : (db.record loc day c1).record loc day c2
        = (db.record loc day c1).insert_daily_stat loc day c2 0 := by
      rw [hrec, hn2]
    rw [e2, e1, stat_for_day_insert, stat_for_day_insert]
    exact ⟨rfl, rfl⟩
  · intro p hp hmax
    have hs : db.last_stat_before_day loc day = some p :=
      maxByDay_eq_of_max (priorRows_day_inj db h loc day) hp hmax
    have e1 : db.record loc day c1
        = db.insert_daily_stat loc day c1 ((c1 : Int) - (p.capacityBytes : Int)) := by
      rw [hrec, hs]
    have hp1 : (db.record loc day c1).priorRows loc day
        = db.priorRows loc day := by
      rw [e1, priorRows_insert]
    have hs2 : (db.record loc day c1).last_stat_before_day loc day = some p := by
      rw [Database.last_stat_before_day, hp1]
      exact hs
    have e2 : (db.record loc day c1).record loc day c2
        = (db.record loc day c1).insert_daily_stat loc day c2
            ((c2 : Int) - (p.capacityBytes : Int)) := by
      rw [hrec, hs2]
    rw [e2, e1, stat_for_day_insert, stat_for_day_insert]
    exact ⟨rfl, rfl⟩

/-- Closed instance of C1 on `dbEx` (one prior row, day 100, 10 bytes):
recording day 101 twice takes the baseline 10 both times. -/
theorem C1_witness :
    (dbEx.priorRows 1 101 = [] →
        (dbEx.record 1 101 12).stat_for_day 1 101 = some ⟨1, 101, 12, 0⟩
        ∧ ((dbEx.record 1 101 12).record 1 101 13).stat_for_day 1 101
            = some ⟨1, 101, 13, 0⟩)
    ∧ (∀ p ∈ dbEx.priorRows 1 101,
        (∀ q ∈ dbEx.priorRows 1 101, q.day ≤ p.day) →
        (dbEx.record 1 101 12).stat_for_day 1 101
            = some ⟨1, 101, 12, ((12 : Nat) : Int) - (p.capacityBytes : Int)⟩
        ∧ ((dbEx.record 1 101 12).record 1 101 13).stat_for_day 1 101
            = some ⟨1, 101, 13, ((13 : Nat) : Int) - (p.capacityBytes : Int)⟩) :=
  C1_delta_baseline dbEx (by decide) 1 101 12 13

/-- C2: starting from any store satisfying the per-`(location, day)`
uniqueness invariant, any sequence of `record` operations preserves it,
so each key ends up on at most one row. -/
theorem C2_unique_per_day (db : Database) (h : db.statsUnique)
    (ops : List (Nat × Nat × Nat)) (loc day : Nat) :
    (ops.foldl (fun d o => d.record o.1 o.2.1 o.2.2) db).statsUnique
    ∧ (ops.foldl (fun d o => d.record o.1 o.2.1 o.2.2) db).dailyStats.countP
        (fun s => decide (s.locationId = loc ∧ s.day = day)) ≤ 1 := by
  have hu : ∀ (l : List (Nat × Nat × Nat)) (d : Database), d.statsUnique →
      (l.foldl (fun d o => d.record o.1 o.2.1 o.2.2) d).statsUnique := by
    intro l
    induction l with
    | nil => intro d hd; exact hd
    | cons o rest ih =>
      intro d hd
      exact ih _ (statsUnique_record d o.1 o.2.1 o.2.2 hd)
  have hu2 := hu ops db h
  exact ⟨hu2, countP_key_le_one hu2 loc day⟩

/-- Closed instance of C2: recording day 100 twice on `dbEx` leaves a
single row for `(1, 100)`. -/
theorem C2_witness :
    ([((1 : Nat), ((100 : Nat), (12 : Nat))), (1, (100, 13))].foldl
        (fun d o => d.record o.1 o.2.1 o.2.2) dbEx).statsUnique
    ∧ ([((1 : Nat), ((100 : Nat), (12 : Nat))), (1, (100, 13))].foldl
        (fun d o => d.record o.1 o.2.1 o.2.2) dbEx).dailyStats.countP
        (fun s => decide (s.locationId = 1 ∧ s.day = 100)) ≤ 1 :=
  C2_unique_per_day dbEx (by decide) [(1, (100, 12)), (1, (100, 13))] 1 100

/-- C4: the week filter keeps exactly the rows whose day lies in the
inclusive seven-day window starting at the Monday of the reference
date's ISO week (so it ends on the following Sunday and contains the
reference date), as a sublist, preserving the series order. -/
theorem C4_week_filter (stats : List DailyStat) (selected : Date)
    (h : 1 ≤ selected.toOrd) :
    filtered_stats "Týden" selected stats
        = stats.filter (fun r =>
            decide (mondayOfWeek selected.toOrd ≤ r.day
              ∧ r.day ≤ mondayOfWeek selected.toOrd + 6))
    ∧ weekdayOf (mondayOfWeek selected.toOrd) = 0
    ∧ weekdayOf (mondayOfWeek selected.toOrd + 6) = 6
    ∧ mondayOfWeek selected.toOrd ≤ selected.toOrd
    ∧ selected.toOrd ≤ mondayOfWeek selected.toOrd + 6
    ∧ (filtered_stats "Týden" selected stats).Sublist stats := by
  have heq : filtered_stats "Týden" selected stats
      = stats.filter (fun r =>
          decide (mondayOfWeek selected.toOrd ≤ r.day
            ∧ r.day ≤ mondayOfWeek selected.toOrd + 6)) := by
    rw [filtered_stats, if_neg (by decide), if_pos rfl]
  refine ⟨heq, ?_, ?_, ?_, ?_, ?_⟩
  · simp only [weekdayOf, mondayOfWeek]
    omega
  · simp only [weekdayOf, mondayOfWeek]
    omega
  · simp only [mondayOfWeek]
    omega
  · simp only [weekdayOf, mondayOfWeek]
    omega
  · rw [heq]
    exact List.filter_sublist stats

/-- Closed instance of C4 at the spec's example: reference Thursday
2024-03-14, window Monday 2024-03-11 … Sunday 2024-03-17; the two rows
outside it are dropped, the three inside survive in order. -/
theorem C4_witness :
    (filtered_stats "Týden" (Date.mk 2024 3 14) statsEx
        = statsEx.filter (fun r =>
            decide (mondayOfWeek (Date.mk 2024 3 14).toOrd ≤ r.day
              ∧ r.day ≤ mondayOfWeek (Date.mk 2024 3 14).toOrd + 6))
    ∧ weekdayOf (mondayOfWeek (Date.mk 2024 3 14).toOrd) = 0
    ∧ weekdayOf (mondayOfWeek (Date.mk 2024 3 14).toOrd + 6) = 6
    ∧ mondayOfWeek (Date.mk 2024 3 14).toOrd ≤ (Date.mk 2024 3 14).toOrd
    ∧ (Date.mk 2024 3 14).toOrd ≤ mondayOfWeek (Date.mk 2024 3 14).toOrd + 6
    ∧ (filtered_stats "Týden" (Date.mk 2024 3 14) statsEx).Sublist statsEx)
    ∧ filtered_stats "Týden" (Date.mk 2024 3 14) statsEx
        = [⟨1, (Date.mk 2024 3 11).toOrd, 10, 1⟩,
           ⟨1, (Date.mk 2024 3 14).toOrd, 12, 2⟩,
           ⟨1, (Date.mk 2024 3 17).toOrd, 13, 1⟩]
    ∧ mondayOfWeek (Date.mk 2024 3 14).toOrd = (Date.mk 2024 3 11).toOrd
    ∧ mondayOfWeek (Date.mk 2024 3 14).toOrd + 6 = (Date.mk 2024 3 17).toOrd :=
  ⟨C4_week_filter statsEx (Date.mk 2024 3 14) (by decide),
   by decide, by decide, by decide⟩
